import Mathlib

/-!
Shallow embedding of the comment sentiment-analysis backend: the AI
enrichment client (sentiment classification with keyword fallback,
summarization with sentence fallback, per-comment processing), the batched
background scheduler, the status/statistics queries, and the word-cloud
extractor. JS strings are modelled as Lean `String` (char lists), JS
numbers that carry confidence scores as `ℚ`, and the remote HTTP calls as
explicit outcome parameters. Remote-call fallibility is passed in as data
so every definition stays executable.
-/

/-- Prefix test on char lists: does the second list start the first?
Mirrors the character-by-character comparison used for substring search. -/
def startsWithChars : List Char → List Char → Bool
  | _, [] => true
  | [], _ :: _ => false
  | a :: as, b :: bs => a == b && startsWithChars as bs

/-- Contiguous-substring occurrence on char lists. -/
def containsSub : List Char → List Char → Bool
  | [], sub => sub.isEmpty
  | l@(_ :: rest), sub => startsWithChars l sub || containsSub rest sub

/-- JS `String.prototype.includes`: substring containment. -/
def jsIncludes (s sub : String) : Bool := containsSub s.data sub.data

/-- JS `String.prototype.toLowerCase` (ASCII case mapping). Defined over the
underlying char list so it evaluates inside the kernel. -/
def jsToLower (s : String) : String := String.mk (s.data.map Char.toLower)

/-- JS `String.prototype.trim`: strip leading and trailing whitespace. -/
def jsTrim (s : String) : String :=
  String.mk (((s.data.dropWhile Char.isWhitespace).reverse.dropWhile
    Char.isWhitespace).reverse)

/-- The positive keyword list of `AIProcessor.fallbackSentimentAnalysis`. -/
def positiveWords : List String :=
  ["excellent", "good", "great", "amazing", "wonderful", "fantastic", "love",
   "perfect", "outstanding", "satisfied", "happy"]

/-- The negative keyword list of `AIProcessor.fallbackSentimentAnalysis`. -/
def negativeWords : List String :=
  ["terrible", "bad", "awful", "horrible", "hate", "worst", "disappointing",
   "poor", "unacceptable", "frustrated", "angry"]

/-- The `reduce`-style keyword scoring of `fallbackSentimentAnalysis`:
add 1 for every keyword of the list that occurs in the lowercased text. -/
def keywordScore (words : List String) (lowercaseText : String) : Nat :=
  words.foldl
    (fun score word => score + (if jsIncludes lowercaseText word then 1 else 0)) 0

/-- `AIProcessor.fallbackSentimentAnalysis`: local keyword scorer used when
the remote sentiment call fails. Returns the (sentiment, confidence) pair. -/
def fallbackSentimentAnalysis (text : String) : String × ℚ :=
  let lowercaseText := jsToLower text
  let positiveScore := keywordScore positiveWords lowercaseText
  let negativeScore := keywordScore negativeWords lowercaseText
  if positiveScore > negativeScore then
    ("positive", min 0.8 (0.5 + (positiveScore : ℚ) * 0.1))
  else if negativeScore > positiveScore then
    ("negative", min 0.8 (0.5 + (negativeScore : ℚ) * 0.1))
  else
    ("neutral", 0.5)

/-- One `{label, score}` object of the remote sentiment payload. -/
structure LabelScore where
  label : String
  score : ℚ
  deriving DecidableEq

/-- The ways the remote sentiment call in `AIProcessor.analyzeSentiment`
can come back, as distinguished by that function's own control flow:
`fetchError` (transport failure), `httpNotOk` (non-2xx, thrown at the
`response.ok` check), `jsonError` (`response.json()` throws),
`notArrayOrEmpty` (parsed payload fails the `Array.isArray && length > 0`
check), `rows entries` (payload is a non-empty array whose first element is
the list `entries` of label/score objects; an empty `entries` makes the
no-seed `reduce` throw, which the surrounding catch absorbs). -/
inductive SentimentApiOutcome where
  | fetchError
  | httpNotOk
  | jsonError
  | notArrayOrEmpty
  | rows (entries : List LabelScore)

/-- The no-initial-value `reduce` picking the highest-scoring entry:
keep `prev` unless `current.score` is strictly larger. -/
def topScoreEntry (e : LabelScore) (es : List LabelScore) : LabelScore :=
  es.foldl (fun prev current => if prev.score > current.score then prev else current) e

/-- `AIProcessor.analyzeSentiment`, with the remote call's outcome passed
in explicitly. -/
def analyzeSentiment (o : SentimentApiOutcome) (text : String) : String × ℚ :=
  match o with
  | .fetchError => fallbackSentimentAnalysis text
  | .httpNotOk => fallbackSentimentAnalysis text
  | .jsonError => fallbackSentimentAnalysis text
  | .notArrayOrEmpty => ("neutral", 0)
  | .rows [] => fallbackSentimentAnalysis text
  | .rows (e :: es) =>
      let top := topScoreEntry e es
      let sentiment :=
        if top.label = "LABEL_0" then "negative"
        else if top.label = "LABEL_1" then "neutral"
        else if top.label = "LABEL_2" then "positive"
        else "neutral"
      (sentiment, top.score)

/-- JS `split` on a regex matching runs of delimiter characters
(state for one `foldl` step: finished fragments, current fragment in
reverse, whether the previous char belonged to a delimiter run). -/
structure SplitState where
  done : List String
  cur : List Char
  inRun : Bool

/-- One step of the run-splitting state machine. -/
def splitRunsStep (p : Char → Bool) (st : SplitState) (c : Char) : SplitState :=
  if p c then
    if st.inRun then st
    else { done := st.done ++ [String.mk st.cur.reverse], cur := [], inRun := true }
  else
    { done := st.done, cur := c :: st.cur, inRun := false }

/-- JS `String.prototype.split` with a regex matching one-or-more
characters satisfying `p`: adjacent delimiters act as one separator, while
a leading or trailing separator contributes an empty fragment. -/
def jsSplitOnRuns (p : Char → Bool) (s : String) : List String :=
  let st := s.data.foldl (splitRunsStep p) ⟨[], [], false⟩
  st.done ++ [String.mk st.cur.reverse]

/-- The sentence fragments of `AIProcessor.fallbackSummarization`: split on
runs of `.`, `!`, `?` and keep only fragments with non-blank content. -/
def sentenceFragments (text : String) : List String :=
  (jsSplitOnRuns (fun c => c = '.' || c = '!' || c = '?') text).filter
    (fun s => 0 < (jsTrim s).length)

/-- JS `Array.prototype.join` with a separator string. -/
def joinSep (sep : String) : List String → String
  | [] => ""
  | [x] => x
  | x :: y :: rest => x ++ sep ++ joinSep sep (y :: rest)

/-- `AIProcessor.fallbackSummarization`: with at most two sentences the
text is returned unchanged, otherwise the first two fragments are joined
with a period-space separator, trimmed, and given a trailing period. -/
def fallbackSummarization (text : String) : String :=
  let sentences := sentenceFragments text
  if sentences.length ≤ 2 then text
  else jsTrim (joinSep ". " (sentences.take 2)) ++ "."

/-- The ways the remote summarization call in `AIProcessor.summarizeText`
can come back: `failure` (transport error, non-2xx, or JSON error — all
land in the catch), `badShape` (parsed payload fails the
`Array.isArray && length > 0 && summary_text` check), `okSummary s`
(payload carries the summary string `s`). -/
inductive SummaryApiOutcome where
  | failure
  | badShape
  | okSummary (s : String)

/-- `AIProcessor.summarizeText`, with the remote call's outcome passed in
explicitly. Texts shorter than 100 characters short-circuit. -/
def summarizeText (o : SummaryApiOutcome) (text : String) : String :=
  if text.length < 100 then text
  else
    match o with
    | .okSummary s => s
    | .badShape => fallbackSummarization text
    | .failure => fallbackSummarization text

/-- The object returned by `AIProcessor.processComment`. -/
structure ProcessResult where
  sentiment : String
  confidence : ℚ
  summary : String
  processed : Bool

/-- `AIProcessor.processComment`: run sentiment analysis and summarization
and merge the results; `outerFailure` models the outer catch, which
absorbs any escaping error into a neutral, unprocessed result. -/
def processComment (so : SentimentApiOutcome) (mo : SummaryApiOutcome)
    (outerFailure : Bool) (text : String) : ProcessResult :=
  if outerFailure then
    { sentiment := "neutral", confidence := 0, summary := text, processed := false }
  else
    let sr := analyzeSentiment so text
    { sentiment := sr.1, confidence := sr.2,
      summary := summarizeText mo text, processed := true }

/-- Hypothesis on a sentiment outcome: when a payload is used, every
per-class score lies in the unit interval. -/
def scoresBounded : SentimentApiOutcome → Prop
  | .rows entries => ∀ e ∈ entries, 0 ≤ e.score ∧ e.score ≤ 1
  | _ => True

theorem foldl_score_eq (t : String) (ws : List String) (acc : Nat) :
    ws.foldl (fun s w => s + (if jsIncludes t w then 1 else 0)) acc
      = acc + ws.countP (fun w => jsIncludes t w) := by
  induction ws generalizing acc with
  | nil => simp [List.countP_nil]
  | cons w ws ih =>
    rw [List.foldl_cons, ih, List.countP_cons]
    by_cases h : jsIncludes t w
    · simp [h]; omega
    · simp [h]

theorem keywordScore_eq_countP (ws : List String) (t : String) :
    keywordScore ws t = ws.countP (fun w => jsIncludes t w) := by
  simpa [keywordScore] using foldl_score_eq t ws 0

theorem fallback_confidence_bounds (text : String) :
    0 ≤ (fallbackSentimentAnalysis text).2 ∧ (fallbackSentimentAnalysis text).2 ≤ 1 := by
  have hlo : ∀ k : Nat, (0:ℚ) ≤ min 0.8 (0.5 + (k:ℚ) * 0.1) := by
    intro k
    apply le_min (by norm_num)
    positivity
  have hhi : ∀ k : Nat, min (0.8:ℚ) (0.5 + (k:ℚ) * 0.1) ≤ 1 :=
    fun k => le_trans (min_le_left _ _) (by norm_num)
  simp only [fallbackSentimentAnalysis]
  split_ifs
  · exact ⟨hlo _, hhi _⟩
  · exact ⟨hlo _, hhi _⟩
  · exact ⟨by norm_num, by norm_num⟩

theorem fallback_sentiment_values (text : String) :
    (fallbackSentimentAnalysis text).1 = "positive"
    ∨ (fallbackSentimentAnalysis text).1 = "negative"
    ∨ (fallbackSentimentAnalysis text).1 = "neutral" := by
  simp only [fallbackSentimentAnalysis]
  split_ifs <;> simp

theorem topScoreEntry_mem (e : LabelScore) (es : List LabelScore) :
    topScoreEntry e es = e ∨ topScoreEntry e es ∈ es := by
  induction es generalizing e with
  | nil => exact Or.inl rfl
  | cons c cs ih =>
    have hstep : topScoreEntry e (c :: cs)
        = topScoreEntry (if e.score > c.score then e else c) cs := rfl
    rcases ih (if e.score > c.score then e else c) with h | h
    · rw [hstep, h]
      by_cases hc : e.score > c.score
      · simp [hc]
      · simp [hc]
    · right
      rw [hstep]
      exact List.mem_cons_of_mem _ h

theorem analyzeSentiment_wellformed (so : SentimentApiOutcome) (text : String)
    (h : scoresBounded so) :
    ((analyzeSentiment so text).1 = "positive"
      ∨ (analyzeSentiment so text).1 = "negative"
      ∨ (analyzeSentiment so text).1 = "neutral")
    ∧ 0 ≤ (analyzeSentiment so text).2 ∧ (analyzeSentiment so text).2 ≤ 1 := by
  cases so with
  | fetchError => exact ⟨fallback_sentiment_values text, fallback_confidence_bounds text⟩
  | httpNotOk => exact ⟨fallback_sentiment_values text, fallback_confidence_bounds text⟩
  | jsonError => exact ⟨fallback_sentiment_values text, fallback_confidence_bounds text⟩
  | notArrayOrEmpty =>
    refine ⟨Or.inr (Or.inr rfl), ?_, ?_⟩ <;> norm_num [analyzeSentiment]
  | rows entries =>
    cases entries with
    | nil => exact ⟨fallback_sentiment_values text, fallback_confidence_bounds text⟩
    | cons e es =>
      have hmem : topScoreEntry e es ∈ e :: es := by
        rcases topScoreEntry_mem e es with h1 | h1
        · rw [h1]; exact List.mem_cons_self _ _
        · exact List.mem_cons_of_mem _ h1
      have hb := h _ hmem
      constructor
      · simp only [analyzeSentiment]
        split_ifs <;> simp
      · exact hb

/-- C1: every result of `processComment` has sentiment equal to one of
"positive", "negative", "neutral" and confidence in the closed interval
[0, 1] — on the remote-success path, the local-fallback path, and the
error-absorbing path alike — assuming the remote per-class scores, when a
remote payload is used, lie in [0, 1]. -/
theorem processComment_wellformed (so : SentimentApiOutcome)
    (mo : SummaryApiOutcome) (outerFailure : Bool) (text : String)
    (h : scoresBounded so) :
    ((processComment so mo outerFailure text).sentiment = "positive"
      ∨ (processComment so mo outerFailure text).sentiment = "negative"
      ∨ (processComment so mo outerFailure text).sentiment = "neutral")
    ∧ 0 ≤ (processComment so mo outerFailure text).confidence
    ∧ (processComment so mo outerFailure text).confidence ≤ 1 := by
  cases outerFailure with
  | true =>
    refine ⟨Or.inr (Or.inr rfl), ?_, ?_⟩ <;> norm_num [processComment]
  | false =>
    have hs := analyzeSentiment_wellformed so text h
    simpa [processComment] using hs

/-- Witness for C1 at a concrete transport-failure outcome. -/
theorem processComment_wellformed_witness :
    ((processComment SentimentApiOutcome.fetchError SummaryApiOutcome.failure
        false "service was ok").sentiment = "positive"
      ∨ (processComment SentimentApiOutcome.fetchError SummaryApiOutcome.failure
          false "service was ok").sentiment = "negative"
      ∨ (processComment SentimentApiOutcome.fetchError SummaryApiOutcome.failure
          false "service was ok").sentiment = "neutral")
    ∧ 0 ≤ (processComment SentimentApiOutcome.fetchError SummaryApiOutcome.failure
        false "service was ok").confidence
    ∧ (processComment SentimentApiOutcome.fetchError SummaryApiOutcome.failure
        false "service was ok").confidence ≤ 1 :=
  processComment_wellformed SentimentApiOutcome.fetchError
    SummaryApiOutcome.failure false "service was ok" trivial

/-- C2 counterexample: a malformed payload that parses but is not a
non-empty array makes `analyzeSentiment` return the fixed neutral result,
not the local keyword scorer's result, so on this failure kind the claimed
equality with `fallbackSentimentAnalysis` fails. -/
theorem analyzeSentiment_malformed_counterexample :
    analyzeSentiment SentimentApiOutcome.notArrayOrEmpty "excellent and good"
      ≠ fallbackSentimentAnalysis "excellent and good" := by
  intro h
  have h1 : (analyzeSentiment SentimentApiOutcome.notArrayOrEmpty
      "excellent and good").1 = (fallbackSentimentAnalysis "excellent and good").1 :=
    congrArg Prod.fst h
  have h2 : (analyzeSentiment SentimentApiOutcome.notArrayOrEmpty
      "excellent and good").1 ≠ (fallbackSentimentAnalysis "excellent and good").1 := by
    decide
  exact h2 h1

/-- C2 amended: on a transport failure, a non-2xx response, or a malformed
payload that throws during extraction (unparseable JSON, or an empty first
row that breaks the seedless reduce), `analyzeSentiment` returns exactly
the local keyword scorer's result; but a payload that parses to something
other than a non-empty array yields the fixed ("neutral", 0) instead. -/
theorem analyzeSentiment_failure_fallback (text : String) :
    analyzeSentiment SentimentApiOutcome.fetchError text = fallbackSentimentAnalysis text
    ∧ analyzeSentiment SentimentApiOutcome.httpNotOk text = fallbackSentimentAnalysis text
    ∧ analyzeSentiment SentimentApiOutcome.jsonError text = fallbackSentimentAnalysis text
    ∧ analyzeSentiment (SentimentApiOutcome.rows []) text = fallbackSentimentAnalysis text
    ∧ analyzeSentiment SentimentApiOutcome.notArrayOrEmpty text = ("neutral", 0) :=
  ⟨rfl, rfl, rfl, rfl, rfl⟩

/-- C3: the fallback scorer counts, for each list, the keywords occurring
(case-insensitively, as substrings) in the lowercased text; the strictly
larger count wins, ties give neutral; the winner's confidence is
min 0.8 (0.5 + 0.1 * count), a tie's is 0.5; and a text containing exactly
two positive keywords and no negative keyword yields ("positive", 0.7). -/
theorem fallbackSentiment_spec (text : String) (p n : Nat)
    (hp : p = positiveWords.countP (fun w => jsIncludes (jsToLower text) w))
    (hn : n = negativeWords.countP (fun w => jsIncludes (jsToLower text) w)) :
    (n < p → fallbackSentimentAnalysis text
        = ("positive", min 0.8 (0.5 + (p : ℚ) * 0.1)))
    ∧ (p < n → fallbackSentimentAnalysis text
        = ("negative", min 0.8 (0.5 + (n : ℚ) * 0.1)))
    ∧ (p = n → fallbackSentimentAnalysis text = ("neutral", 0.5))
    ∧ (p = 2 → n = 0 → fallbackSentimentAnalysis text = ("positive", 0.7)) := by
  have hp2 : keywordScore positiveWords (jsToLower text) = p := by
    rw [hp, keywordScore_eq_countP]
  have hn2 : keywordScore negativeWords (jsToLower text) = n := by
    rw [hn, keywordScore_eq_countP]
  refine ⟨?_, ?_, ?_, ?_⟩
  · intro hlt
    simp only [fallbackSentimentAnalysis, hp2, hn2]
    rw [if_pos hlt]
  · intro hlt
    simp only [fallbackSentimentAnalysis, hp2, hn2]
    rw [if_neg (by omega), if_pos hlt]
  · intro heq
    simp only [fallbackSentimentAnalysis, hp2, hn2]
    rw [if_neg (by omega), if_neg (by omega)]
  · intro hp0 hn0
    simp only [fallbackSentimentAnalysis, hp2, hn2, hp0, hn0]
    norm_num

/-- Witness for C3 at a text with exactly two positive keywords. -/
theorem fallbackSentiment_spec_witness :
    fallbackSentimentAnalysis "good and great stuff" = ("positive", 0.7) :=
  (fallbackSentiment_spec "good and great stuff" 2 0 (by decide) (by decide)).2.2.2
    rfl rfl

/-- C6 counterexample: on the three-sentence text "A. B. C." the fallback
summarizer returns "A.  B." — the second fragment keeps its leading space,
so the claimed output "A. B." is wrong. -/
theorem fallbackSummarization_example_counterexample :
    fallbackSummarization "A. B. C." ≠ "A. B." := by decide

/-- C6 amended: the fallback summarizer splits on runs of '.', '!', '?',
discards blank fragments, returns the text unchanged when at most two
fragments remain, and otherwise joins the first two fragments (which keep
their leading whitespace) with ". ", trims the result, and appends a
period; on "A. B. C." this gives "A.  B." (with two spaces). -/
theorem fallbackSummarization_spec (text : String) :
    ((sentenceFragments text).length ≤ 2 → fallbackSummarization text = text)
    ∧ (2 < (sentenceFragments text).length → fallbackSummarization text
        = jsTrim (joinSep ". " ((sentenceFragments text).take 2)) ++ ".")
    ∧ fallbackSummarization "A. B. C." = "A.  B." := by
  refine ⟨?_, ?_, by decide⟩
  · intro h
    simp only [fallbackSummarization]
    rw [if_pos h]
  · intro h
    simp only [fallbackSummarization]
    rw [if_neg (by omega)]

/-- Witness for C6 at a two-sentence text (returned unchanged) and via the
amended theorem's concrete conjunct. -/
theorem fallbackSummarization_spec_witness :
    fallbackSummarization "One sentence. Two" = "One sentence. Two" :=
  (fallbackSummarization_spec "One sentence. Two").1 (by decide)

/-- One stored comment record (the mongoose `Comment` document, scoped to
one upload session: a session is modelled as the list of its records). -/
structure CommentRec where
  commentId : String
  originalText : String
  summary : String
  sentiment : String
  confidence : ℚ
  processed : Bool

/-- One step of a scheduler run: process a batch concurrently, or sleep
for the inter-batch delay. -/
inductive SchedStep (α : Type) where
  | procBatch (batch : List α)
  | delay (ms : Nat)

/-- The batching loop `for (i = 0; i < n; i += batchSize)` of the comment
routes: each iteration takes `slice(i, i + batchSize)` and, when
`i + batchSize < n`, sleeps for the fixed delay. Written with fuel (one
unit per batch, so the list length always suffices) to keep the recursion
structural. -/
def scheduleTraceAux {α : Type} (batchSize delayMs : Nat) :
    Nat → List α → List (SchedStep α)
  | _, [] => []
  | 0, _ :: _ => []
  | fuel + 1, x :: xs =>
      SchedStep.procBatch (x :: xs.take (batchSize - 1)) ::
        (match xs.drop (batchSize - 1) with
         | [] => []
         | y :: ys =>
            SchedStep.delay delayMs :: scheduleTraceAux batchSize delayMs fuel (y :: ys))

/-- The full trace of one scheduler run over the snapshot of records. -/
def scheduleTrace {α : Type} (batchSize delayMs : Nat) (l : List α) :
    List (SchedStep α) :=
  scheduleTraceAux batchSize delayMs l.length l

/-- The batches issued by a trace, in order. -/
def traceBatches {α : Type} : List (SchedStep α) → List (List α)
  | [] => []
  | SchedStep.procBatch b :: rest => b :: traceBatches rest
  | SchedStep.delay _ :: rest => traceBatches rest

/-- The sizes of the batches issued by a trace. -/
def traceBatchSizes {α : Type} (steps : List (SchedStep α)) : List Nat :=
  (traceBatches steps).map List.length

/-- The inter-batch delays slept by a trace, in order. -/
def traceDelays {α : Type} : List (SchedStep α) → List Nat
  | [] => []
  | SchedStep.procBatch _ :: rest => traceDelays rest
  | SchedStep.delay ms :: rest => ms :: traceDelays rest

/-- Batch size of the synchronous on-demand route `POST /process/:id`. -/
def processRouteBatchSize : Nat := 5

/-- Inter-batch delay (ms) of the on-demand route. -/
def processRouteDelayMs : Nat := 1000

/-- Batch size of `processCommentsInBackground`. -/
def backgroundBatchSize : Nat := 3

/-- Inter-batch delay (ms) of `processCommentsInBackground`. -/
def backgroundDelayMs : Nat := 2000

/-- The trace of the on-demand processing route over a record snapshot. -/
def processRouteTrace {α : Type} (l : List α) : List (SchedStep α) :=
  scheduleTrace processRouteBatchSize processRouteDelayMs l

/-- The trace of the background fire-and-forget path over a snapshot. -/
def backgroundTrace {α : Type} (l : List α) : List (SchedStep α) :=
  scheduleTrace backgroundBatchSize backgroundDelayMs l

/-- C4: over a session snapshot of 7 unprocessed records the background
(fire-and-forget) path issues exactly the 3 consecutive batches of sizes
3, 3, 1 with exactly 2 inter-batch delays of its fixed 2000 ms; the
on-demand path runs the same records with batch size 5 and 1000 ms delays
(here: batches of sizes 5 and 2 with one 1000 ms delay). -/
theorem scheduler_batches_of_7 {α : Type} (l : List α) (h : l.length = 7) :
    traceBatchSizes (backgroundTrace l) = [3, 3, 1]
    ∧ traceDelays (backgroundTrace l) = [2000, 2000]
    ∧ traceBatchSizes (processRouteTrace l) = [5, 2]
    ∧ traceDelays (processRouteTrace l) = [1000] := by
  rcases l with _ | ⟨a, _ | ⟨b, _ | ⟨c, _ | ⟨d, _ | ⟨e, _ | ⟨f, _ | ⟨g, _ | ⟨x, t⟩⟩⟩⟩⟩⟩⟩⟩ <;>
      simp only [List.length_cons, List.length_nil] at h
  · omega
  · omega
  · omega
  · omega
  · omega
  · omega
  · omega
  · exact ⟨rfl, rfl, rfl, rfl⟩
  · omega

/-- Witness for C4 at a concrete 7-element snapshot. -/
theorem scheduler_batches_of_7_witness :
    traceBatchSizes (backgroundTrace [0, 1, 2, 3, 4, 5, 6]) = [3, 3, 1]
    ∧ traceDelays (backgroundTrace [0, 1, 2, 3, 4, 5, 6]) = [2000, 2000]
    ∧ traceBatchSizes (processRouteTrace [0, 1, 2, 3, 4, 5, 6]) = [5, 2]
    ∧ traceDelays (processRouteTrace [0, 1, 2, 3, 4, 5, 6]) = [1000] :=
  scheduler_batches_of_7 [0, 1, 2, 3, 4, 5, 6] (by decide)

/-- JS `Math.round` on the exact rational value: round half toward
positive infinity. -/
def jsRound (q : ℚ) : ℤ := ⌊q + 1 / 2⌋

/-- The status object of `GET /status/:uploadSession`. -/
structure SessionStatus where
  total : Nat
  processed : Nat
  isComplete : Bool
  progress : ℤ

/-- `GET /status/:uploadSession`: count all records and the processed
ones, report completeness and a rounded progress percentage. -/
def getStatus (recs : List CommentRec) : SessionStatus :=
  let total := recs.length
  let processed := (recs.filter (fun r => r.processed = true)).length
  { total := total
    processed := processed
    isComplete := decide (total > 0) && decide (total = processed)
    progress := if total > 0 then jsRound (((processed : ℚ) / (total : ℚ)) * 100) else 0 }

/-- C5: `getStatus` reports `isComplete` exactly when the session is
non-empty and every record is processed, and `progress` is the rounded
percentage `round(100 * processed / total)` for a non-empty session and 0
for an empty one, where `total` counts all records and `processed` the
records with `processed = true`. -/
theorem getStatus_spec (recs : List CommentRec) :
    (getStatus recs).total = recs.length
    ∧ (getStatus recs).processed = recs.countP (fun r => r.processed)
    ∧ ((getStatus recs).isComplete = true ↔
        (0 < recs.length ∧ recs.length = recs.countP (fun r => r.processed)))
    ∧ (0 < recs.length → (getStatus recs).progress
        = jsRound (100 * (recs.countP (fun r => r.processed) : ℚ) / (recs.length : ℚ)))
    ∧ (recs.length = 0 → (getStatus recs).progress = 0) := by
  have hfun : (fun (r : CommentRec) => decide (r.processed = true))
      = (fun r => r.processed) := by
    funext r
    simp
  have hcount : (List.filter (fun r => decide (r.processed = true)) recs).length
      = recs.countP (fun r => r.processed) := by
    rw [hfun, List.countP_eq_length_filter]
  refine ⟨rfl, hcount, ?_, ?_, ?_⟩
  · simp only [getStatus, Bool.and_eq_true, decide_eq_true_eq]
    rw [hcount]
  · intro hpos
    simp only [getStatus]
    rw [if_pos hpos, hcount]
    congr 1
    ring
  · intro hzero
    simp [getStatus, hzero]

/-- Witness for C5 at the empty session. -/
theorem getStatus_spec_witness : (getStatus []).progress = 0 :=
  (getStatus_spec []).2.2.2.2 rfl

/-- Per-record enrichment environment for a scheduler run: the remote
outcomes and the outer-catch flag each comment text would see. -/
structure EnrichEnv where
  sentimentOutcome : String → SentimentApiOutcome
  summaryOutcome : String → SummaryApiOutcome
  outerFailure : String → Bool

/-- The enrichment result `aiProcessor.processComment(text)` under an
environment. -/
def enrichOf (env : EnrichEnv) (text : String) : ProcessResult :=
  processComment (env.sentimentOutcome text) (env.summaryOutcome text)
    (env.outerFailure text) text

/-- The `Comment.findByIdAndUpdate` write performed for one record: set
sentiment, confidence and summary from the result and force
`processed := true`. -/
def applyUpdate (res : ProcessResult) (r : CommentRec) : CommentRec :=
  { r with sentiment := res.sentiment, confidence := res.confidence,
           summary := res.summary, processed := true }

/-- The snapshot both scheduler entry points take:
`Comment.find({uploadSession, processed: false})`. -/
def unprocessedOf (recs : List CommentRec) : List CommentRec :=
  recs.filter (fun r => r.processed = false)

/-- The writes one batch performs (one update per record of the batch). -/
def batchWrites (env : EnrichEnv) (batch : List CommentRec) : List CommentRec :=
  batch.map (fun r => applyUpdate (enrichOf env r.originalText) r)

/-- All record writes of one scheduler run: the batches of the run's
trace, each mapped through its updates, concatenated in order. -/
def sessionWrites (env : EnrichEnv) (batchSize delayMs : Nat)
    (recs : List CommentRec) : List CommentRec :=
  ((traceBatches (scheduleTrace batchSize delayMs (unprocessedOf recs))).map
    (batchWrites env)).foldl (fun acc ws => acc ++ ws) []

/-- The `processedCount` a run accumulates (every modelled update
succeeds, so it is the number of writes). -/
def sessionProcessedCount (env : EnrichEnv) (batchSize delayMs : Nat)
    (recs : List CommentRec) : Nat :=
  (sessionWrites env batchSize delayMs recs).length

/-- The reply of `POST /process/:uploadSession`: the early no-comments
message, or a success message carrying the processed count. -/
inductive ProcessRouteReply where
  | alreadyDone
  | ran (processedCount : Nat)
  deriving DecidableEq

/-- `POST /process/:uploadSession`: an empty unprocessed snapshot returns
the early message without running any batch. -/
def processRouteReply (env : EnrichEnv) (recs : List CommentRec) : ProcessRouteReply :=
  if (unprocessedOf recs).length = 0 then ProcessRouteReply.alreadyDone
  else ProcessRouteReply.ran
    (sessionProcessedCount env processRouteBatchSize processRouteDelayMs recs)

/-- C7: for a session in which no record has `processed = false`, either
scheduler mode performs no record writes and reports a processed count of
zero; the on-demand route takes its early no-op return. -/
theorem scheduler_noop_when_all_processed (env : EnrichEnv)
    (recs : List CommentRec) (h : ∀ r ∈ recs, r.processed = true) :
    sessionWrites env backgroundBatchSize backgroundDelayMs recs = []
    ∧ sessionProcessedCount env backgroundBatchSize backgroundDelayMs recs = 0
    ∧ sessionWrites env processRouteBatchSize processRouteDelayMs recs = []
    ∧ sessionProcessedCount env processRouteBatchSize processRouteDelayMs recs = 0
    ∧ processRouteReply env recs = ProcessRouteReply.alreadyDone := by
  have hempty : unprocessedOf recs = [] := by
    simp only [unprocessedOf, List.filter_eq_nil_iff]
    intro r hr
    simp [h r hr]
  refine ⟨?_, ?_, ?_, ?_, ?_⟩ <;>
    simp [sessionWrites, sessionProcessedCount, processRouteReply, hempty,
      scheduleTrace, scheduleTraceAux, traceBatches]

/-- Witness for C7 at a concrete fully-processed session. -/
theorem scheduler_noop_when_all_processed_witness :
    sessionWrites ⟨fun _ => SentimentApiOutcome.fetchError,
        fun _ => SummaryApiOutcome.failure, fun _ => false⟩
      backgroundBatchSize backgroundDelayMs
      [⟨"1", "fine product", "fine product", "positive", 0.6, true⟩] = []
    ∧ sessionProcessedCount ⟨fun _ => SentimentApiOutcome.fetchError,
        fun _ => SummaryApiOutcome.failure, fun _ => false⟩
      backgroundBatchSize backgroundDelayMs
      [⟨"1", "fine product", "fine product", "positive", 0.6, true⟩] = 0
    ∧ sessionWrites ⟨fun _ => SentimentApiOutcome.fetchError,
        fun _ => SummaryApiOutcome.failure, fun _ => false⟩
      processRouteBatchSize processRouteDelayMs
      [⟨"1", "fine product", "fine product", "positive", 0.6, true⟩] = []
    ∧ sessionProcessedCount ⟨fun _ => SentimentApiOutcome.fetchError,
        fun _ => SummaryApiOutcome.failure, fun _ => false⟩
      processRouteBatchSize processRouteDelayMs
      [⟨"1", "fine product", "fine product", "positive", 0.6, true⟩] = 0
    ∧ processRouteReply ⟨fun _ => SentimentApiOutcome.fetchError,
        fun _ => SummaryApiOutcome.failure, fun _ => false⟩
      [⟨"1", "fine product", "fine product", "positive", 0.6, true⟩]
      = ProcessRouteReply.alreadyDone :=
  scheduler_noop_when_all_processed _ _ (by
    intro r hr
    simp only [List.mem_singleton] at hr
    rw [hr])

/-- The `$group: {_id: sentiment, count: {$sum: 1}}` aggregation over a
list of sentiment values: one (value, multiplicity) pair per distinct
value, in order of first appearance. Fuel-structured so it evaluates. -/
def groupCountsAux : Nat → List String → List (String × Nat)
  | _, [] => []
  | 0, _ :: _ => []
  | fuel + 1, s :: rest =>
      (s, 1 + rest.countP (fun t => t == s)) ::
        groupCountsAux fuel (rest.filter (fun t => t != s))

/-- The grouped sentiment counts (fuel instantiated by the list length,
which always suffices since each step strictly shrinks the list). -/
def groupCounts (l : List String) : List (String × Nat) :=
  groupCountsAux l.length l

/-- The statistics object of `GET /statistics/:uploadSession`. -/
structure SessionStats where
  total : Nat
  processed : Nat
  positive : Nat
  negative : Nat
  neutral : Nat
  deriving DecidableEq

/-- The `sentimentStats.forEach` step: copy one group's count onto the
matching field, ignoring unknown sentiment values. -/
def applyGroup (stats : SessionStats) (g : String × Nat) : SessionStats :=
  if g.1 = "positive" then { stats with positive := g.2 }
  else if g.1 = "negative" then { stats with negative := g.2 }
  else if g.1 = "neutral" then { stats with neutral := g.2 }
  else stats

/-- `GET /statistics/:uploadSession`: total and processed counts plus the
per-sentiment counts over processed records, defaulting to 0 for any
sentiment absent from the grouped result. -/
def getStatistics (recs : List CommentRec) : SessionStats :=
  let processedRecs := recs.filter (fun r => r.processed = true)
  let groups := groupCounts (processedRecs.map (fun r => r.sentiment))
  groups.foldl applyGroup
    { total := recs.length, processed := processedRecs.length,
      positive := 0, negative := 0, neutral := 0 }

theorem foldl_applyGroup_const (F : SessionStats → Nat)
    (hF : ∀ st g, F (applyGroup st g) = F st) :
    ∀ (gs : List (String × Nat)) (stats : SessionStats),
      F (gs.foldl applyGroup stats) = F stats := by
  intro gs
  induction gs with
  | nil => intro stats; rfl
  | cons g gs ih =>
    intro stats
    rw [List.foldl_cons, ih, hF]

theorem countP_filter_ne_self (rest : List String) :
    (rest.filter (fun t => t != s)).countP (fun t => t == s) = 0 := by
  rw [List.countP_filter, List.countP_eq_zero]
  intro a _
  simp only [Bool.and_eq_true, beq_iff_eq, bne_iff_ne, ne_eq]
  tauto

theorem countP_filter_ne_other (rest : List String) (k : String) (hk : k ≠ s) :
    (rest.filter (fun t => t != s)).countP (fun t => t == k)
      = rest.countP (fun t => t == k) := by
  rw [List.countP_filter]
  apply List.countP_congr
  intro a _
  simp only [Bool.and_eq_true, beq_iff_eq, bne_iff_ne, ne_eq]
  constructor
  · intro h
    exact h.1
  · intro h
    subst h
    exact ⟨rfl, hk⟩

theorem foldl_applyGroup_key (k : String) (F : SessionStats → Nat)
    (hF : ∀ st g, F (applyGroup st g) = if g.1 = k then g.2 else F st) :
    ∀ (fuel : Nat) (l : List String), l.length ≤ fuel → ∀ (stats : SessionStats),
      F ((groupCountsAux fuel l).foldl applyGroup stats)
        = if 0 < l.countP (fun t => t == k) then l.countP (fun t => t == k)
          else F stats := by
  intro fuel
  induction fuel with
  | zero =>
    intro l hl stats
    cases l with
    | nil => simp [groupCountsAux]
    | cons s rest => simp at hl
  | succ fuel ih =>
    intro l hl stats
    cases l with
    | nil => simp [groupCountsAux]
    | cons s rest =>
      have hrest : (rest.filter (fun t => t != s)).length ≤ fuel := by
        have h1 := List.length_filter_le (fun t => t != s) rest
        simp only [List.length_cons] at hl
        omega
      rw [groupCountsAux, List.foldl_cons,
        ih _ hrest (applyGroup stats (s, 1 + rest.countP (fun t => t == s))), hF]
      by_cases hsk : s = k
      · subst hsk
        rw [countP_filter_ne_self rest]
        simp only [Nat.lt_irrefl, if_false, if_pos rfl]
        rw [List.countP_cons]
        simp [Nat.add_comm]
      · rw [countP_filter_ne_other rest k (fun h => hsk h.symm)]
        simp only [if_neg hsk]
        rw [List.countP_cons]
        have hs : (s == k) = false := by simpa using hsk
        simp [hs]

theorem processed_filter_length (recs : List CommentRec) :
    (recs.filter (fun r => r.processed = true)).length
      = recs.countP (fun r => r.processed) := by
  have hfun : (fun (r : CommentRec) => decide (r.processed = true))
      = (fun r => r.processed) := by
    funext r
    simp
  show (List.filter (fun r => decide (r.processed = true)) recs).length = _
  rw [hfun, List.countP_eq_length_filter]

theorem getStatistics_field (recs : List CommentRec) (k : String)
    (F : SessionStats → Nat)
    (hF : ∀ st g, F (applyGroup st g) = if g.1 = k then g.2 else F st)
    (hbase : F { total := recs.length,
                 processed := (recs.filter (fun r => r.processed = true)).length,
                 positive := 0, negative := 0, neutral := 0 } = 0) :
    F (getStatistics recs) = recs.countP (fun r => r.processed && r.sentiment == k) := by
  have hcnt : ((recs.filter (fun r => r.processed = true)).map
        (fun r => r.sentiment)).countP (fun t => t == k)
      = recs.countP (fun r => r.processed && r.sentiment == k) := by
    rw [List.countP_map, List.countP_filter]
    apply List.countP_congr
    intro r _
    by_cases h1 : r.processed <;> by_cases h2 : r.sentiment == k <;>
      simp [h1, h2, Function.comp]
  simp only [getStatistics, groupCounts]
  rw [foldl_applyGroup_key k F hF _ _ (le_refl _) _, hcnt, hbase]
  by_cases h : 0 < recs.countP (fun r => r.processed && r.sentiment == k)
  · rw [if_pos h]
  · rw [if_neg h]
    omega

/-- C8: statistics on an empty session are all zero without error; in
general the per-sentiment counts are taken only over processed records
and a sentiment absent from the grouped result is reported as 0, so each
field equals the direct count of processed records with that sentiment. -/
theorem getStatistics_spec :
    getStatistics [] = ⟨0, 0, 0, 0, 0⟩
    ∧ ∀ recs : List CommentRec,
        (getStatistics recs).total = recs.length
        ∧ (getStatistics recs).processed = recs.countP (fun r => r.processed)
        ∧ (getStatistics recs).positive
            = recs.countP (fun r => r.processed && r.sentiment == "positive")
        ∧ (getStatistics recs).negative
            = recs.countP (fun r => r.processed && r.sentiment == "negative")
        ∧ (getStatistics recs).neutral
            = recs.countP (fun r => r.processed && r.sentiment == "neutral") := by
  refine ⟨rfl, ?_⟩
  intro recs
  have htotal : ∀ st g, (applyGroup st g).total = st.total := by
    intro st g
    simp only [applyGroup]
    split_ifs <;> rfl
  have hproc : ∀ st g, (applyGroup st g).processed = st.processed := by
    intro st g
    simp only [applyGroup]
    split_ifs <;> rfl
  have hpos : ∀ st g, (applyGroup st g).positive
      = if g.1 = "positive" then g.2 else st.positive := by
    intro st g
    simp only [applyGroup]
    split_ifs <;> simp_all
  have hneg : ∀ st g, (applyGroup st g).negative
      = if g.1 = "negative" then g.2 else st.negative := by
    intro st g
    simp only [applyGroup]
    split_ifs <;> simp_all
  have hneu : ∀ st g, (applyGroup st g).neutral
      = if g.1 = "neutral" then g.2 else st.neutral := by
    intro st g
    simp only [applyGroup]
    split_ifs <;> simp_all
  refine ⟨?_, ?_, ?_, ?_, ?_⟩
  · exact foldl_applyGroup_const (fun st => st.total) htotal _ _
  · exact (foldl_applyGroup_const (fun st => st.processed) hproc _ _).trans
      (processed_filter_length recs)
  · exact getStatistics_field recs "positive" (fun st => st.positive) hpos rfl
  · exact getStatistics_field recs "negative" (fun st => st.negative) hneg rfl
  · exact getStatistics_field recs "neutral" (fun st => st.neutral) hneu rfl

/-- The stop-word array of `AIProcessor.isStopWord`, verbatim (the JS
array contains several duplicates; the Set it feeds dedups them). -/
def stopWords : List String :=
  ["the", "and", "or", "but", "in", "on", "at", "to", "for", "of", "with", "by",
   "from", "up", "about", "into", "through", "during", "before", "after", "above",
   "below", "between", "among", "this", "that", "these", "those", "i", "me", "my",
   "myself", "we", "our", "ours", "ourselves", "you", "your", "yours", "yourself",
   "yourselves", "he", "him", "his", "himself", "she", "her", "hers", "herself",
   "it", "its", "itself", "they", "them", "their", "theirs", "themselves", "what",
   "which", "who", "whom", "this", "that", "these", "those", "am", "is", "are",
   "was", "were", "be", "been", "being", "have", "has", "had", "having", "do",
   "does", "did", "doing", "a", "an", "the", "and", "but", "if", "or", "because",
   "as", "until", "while", "very", "can", "will", "just", "should", "now"]

/-- `AIProcessor.isStopWord`: membership of the lowercased word in the
stop-word set. -/
def isStopWord (word : String) : Bool := stopWords.contains (jsToLower word)

/-- The JS `\w` character class: ASCII letters, digits, underscore. -/
def isWordChar (c : Char) : Bool := c.isAlphanum || c = '_'

/-- The tokenization step of `AIProcessor.generateWordCloud`: lowercase
the original text, delete every character that is neither a word
character nor whitespace, split on whitespace runs, and keep tokens
longer than 3 characters that are not stop words. -/
def wordsOf (text : String) : List String :=
  ((jsSplitOnRuns (fun c => c.isWhitespace)
      (String.mk ((jsToLower text).data.filter
        (fun c => isWordChar c || c.isWhitespace)))).filter
    (fun word => 3 < word.length && !isStopWord word))

/-- The in-place update applied to one map entry when the word is already
present: increment the matching key's count, leave other entries alone. -/
def bumpEntry (w : String) (p : String × Nat) : String × Nat :=
  if p.1 == w then (p.1, p.2 + 1) else p

/-- One `wordCount.set(word, (wordCount.get(word) || 0) + 1)` step on the
insertion-ordered map, modelled as an association list: bump an existing
key in place, append a new key with count 1. -/
def bumpWord (m : List (String × Nat)) (w : String) : List (String × Nat) :=
  if m.any (fun p => p.1 == w)
  then m.map (bumpEntry w)
  else m ++ [(w, 1)]

/-- The full frequency table accumulated over all comments. -/
def wordCounts (comments : List CommentRec) : List (String × Nat) :=
  comments.foldl (fun m c => (wordsOf c.originalText).foldl bumpWord m) []

/-- Stable insertion of an entry into a list sorted by descending count:
the entry goes before the first strictly smaller count, after equals.
This realizes the `sort((a, b) => b.value - a.value)` comparator (a
stable sort per the JS specification). -/
def insertDescByValue (x : String × Nat) : List (String × Nat) → List (String × Nat)
  | [] => [x]
  | y :: ys => if y.2 < x.2 then x :: y :: ys else y :: insertDescByValue x ys

/-- Stable descending sort by count (insertion sort). -/
def sortDescByValue : List (String × Nat) → List (String × Nat)
  | [] => []
  | x :: xs => insertDescByValue x (sortDescByValue xs)

/-- `AIProcessor.generateWordCloud`: frequency table over all comments'
original texts, sorted by descending count, truncated to the top 50. -/
def generateWordCloud (comments : List CommentRec) : List (String × Nat) :=
  (sortDescByValue (wordCounts comments)).take 50

theorem insertDescByValue_perm (x : String × Nat) (l : List (String × Nat)) :
    (insertDescByValue x l).Perm (x :: l) := by
  induction l with
  | nil => exact List.Perm.refl _
  | cons y ys ih =>
    simp only [insertDescByValue]
    split_ifs
    · exact List.Perm.refl _
    · exact (ih.cons y).trans (List.Perm.swap x y ys)

theorem sortDescByValue_perm (l : List (String × Nat)) :
    (sortDescByValue l).Perm l := by
  induction l with
  | nil => exact List.Perm.refl _
  | cons x xs ih =>
    exact (insertDescByValue_perm x (sortDescByValue xs)).trans (ih.cons x)

theorem mem_generateWordCloud (comments : List CommentRec) (e : String × Nat)
    (he : e ∈ generateWordCloud comments) : e ∈ wordCounts comments := by
  have he2 : e ∈ sortDescByValue (wordCounts comments) :=
    List.take_subset 50 _ he
  exact (sortDescByValue_perm _).mem_iff.1 he2

theorem bumpEntry_fst (w : String) (p : String × Nat) : (bumpEntry w p).1 = p.1 := by
  simp only [bumpEntry]
  split_ifs <;> rfl

theorem bumpEntry_of_beq (w : String) (p : String × Nat)
    (h : (p.1 == w) = true) : bumpEntry w p = (p.1, p.2 + 1) := by
  simp [bumpEntry, h]

theorem bumpEntry_of_bne (w : String) (p : String × Nat)
    (h : (p.1 == w) = false) : bumpEntry w p = p := by
  simp [bumpEntry, h]

theorem mem_bumpWord (m : List (String × Nat)) (w : String) (e : String × Nat)
    (he : e ∈ bumpWord m w) : e.1 ∈ m.map Prod.fst ∨ e.1 = w := by
  simp only [bumpWord] at he
  split_ifs at he with hany
  · obtain ⟨p, hp, hpe⟩ := List.mem_map.1 he
    left
    have h1 : e.1 = p.1 := by
      rw [← hpe]
      exact bumpEntry_fst w p
    rw [h1]
    exact List.mem_map_of_mem Prod.fst hp
  · rcases List.mem_append.1 he with h | h
    · exact Or.inl (List.mem_map_of_mem Prod.fst h)
    · right
      have : e = (w, 1) := by simpa using h
      rw [this]

theorem bumpWord_keys (m : List (String × Nat)) (w k : String)
    (hk : k ∈ (bumpWord m w).map Prod.fst) : k ∈ m.map Prod.fst ∨ k = w := by
  obtain ⟨e, he, hek⟩ := List.mem_map.1 hk
  rcases mem_bumpWord m w e he with h | h
  · left
    rw [← hek]
    exact h
  · right
    rw [← hek]
    exact h

theorem foldl_bumpWord_keys (ws : List String) (m : List (String × Nat))
    (k : String) (hk : k ∈ (ws.foldl bumpWord m).map Prod.fst) :
    k ∈ m.map Prod.fst ∨ k ∈ ws := by
  induction ws generalizing m with
  | nil => exact Or.inl hk
  | cons w ws ih =>
    rcases ih (bumpWord m w) hk with h | h
    · rcases bumpWord_keys m w k h with h2 | h2
      · exact Or.inl h2
      · exact Or.inr (h2 ▸ List.mem_cons_self w ws)
    · exact Or.inr (List.mem_cons_of_mem w h)

theorem foldl_comments_keys (comments : List CommentRec) (k : String) :
    ∀ m : List (String × Nat),
      k ∈ ((comments.foldl (fun m c => (wordsOf c.originalText).foldl bumpWord m)
        m).map Prod.fst) →
      k ∈ m.map Prod.fst ∨ ∃ c ∈ comments, k ∈ wordsOf c.originalText := by
  induction comments with
  | nil =>
    intro m h
    exact Or.inl h
  | cons c cs ih =>
    intro m h
    rw [List.foldl_cons] at h
    rcases ih _ h with h2 | h2
    · rcases foldl_bumpWord_keys _ _ _ h2 with h3 | h3
      · exact Or.inl h3
      · exact Or.inr ⟨c, List.mem_cons_self c cs, h3⟩
    · obtain ⟨c2, hc2, hw⟩ := h2
      exact Or.inr ⟨c2, List.mem_cons_of_mem c hc2, hw⟩

theorem wordCounts_keys (comments : List CommentRec) (k : String)
    (hk : k ∈ (wordCounts comments).map Prod.fst) :
    ∃ c ∈ comments, k ∈ wordsOf c.originalText := by
  rcases foldl_comments_keys comments k [] hk with h2 | h2
  · simp at h2
  · exact h2

theorem wordsOf_props (text : String) (w : String) (hw : w ∈ wordsOf text) :
    3 < w.length ∧ isStopWord w = false := by
  simp only [wordsOf, List.mem_filter] at hw
  have h := hw.2
  simp only [Bool.and_eq_true, decide_eq_true_eq, Bool.not_eq_true'] at h
  exact h

/-- C9: the word cloud has at most 50 entries, and every returned entry's
token was produced by the tokenizer (lowercase, strip non-word non-space
characters, split on whitespace runs) from some input record's original
text, has length strictly greater than 3, and is not a stop word. -/
theorem generateWordCloud_tokens (comments : List CommentRec) :
    (generateWordCloud comments).length ≤ 50
    ∧ ∀ e ∈ generateWordCloud comments,
        (∃ c ∈ comments, e.1 ∈ wordsOf c.originalText)
        ∧ 3 < e.1.length ∧ isStopWord e.1 = false := by
  constructor
  · show (List.take 50 (sortDescByValue (wordCounts comments))).length ≤ 50
    exact List.length_take_le 50 _
  · intro e he
    have he3 : e ∈ wordCounts comments := mem_generateWordCloud comments e he
    have hkey : e.1 ∈ (wordCounts comments).map Prod.fst :=
      List.mem_map_of_mem Prod.fst he3
    obtain ⟨c, hc, hw⟩ := wordCounts_keys comments e.1 hkey
    exact ⟨⟨c, hc, hw⟩, wordsOf_props c.originalText e.1 hw⟩

/-- Witness for C9 at a concrete single-comment session. -/
theorem generateWordCloud_tokens_witness :
    (("great", 2) ∈ generateWordCloud
        [⟨"1", "Great GREAT service!", "", "neutral", 0, true⟩])
    ∧ (∃ c ∈ [(⟨"1", "Great GREAT service!", "", "neutral", 0, true⟩ : CommentRec)],
        "great" ∈ wordsOf c.originalText)
    ∧ 3 < ("great" : String).length ∧ isStopWord "great" = false :=
  ⟨by decide,
    (generateWordCloud_tokens
        [⟨"1", "Great GREAT service!", "", "neutral", 0, true⟩]).2
      ("great", 2) (by decide)⟩

/-- First-match lookup of a key's count in the association list (0 when
absent) — the reading a JS `Map.get` performs. -/
def keyCount : List (String × Nat) → String → Nat
  | [], _ => 0
  | p :: rest, w => if p.1 == w then p.2 else keyCount rest w

/-- The total number of occurrences of a token across all comments'
tokenized original texts. -/
def totalOccurrences (w : String) (comments : List CommentRec) : Nat :=
  (comments.map (fun c => (wordsOf c.originalText).count w)).sum

theorem keyCount_map_bump (l : List (String × Nat)) (w v : String)
    (hwv : (w == v) = false) :
    keyCount (l.map (bumpEntry w)) v = keyCount l v := by
  induction l with
  | nil => rfl
  | cons p rest ih =>
    rw [List.map_cons]
    cases hpw : p.1 == w with
    | true =>
      have hpv : (p.1 == v) = false := by
        have h1 : p.1 = w := by simpa using hpw
        rw [h1]
        exact hwv
      rw [bumpEntry_of_beq w p hpw]
      simp [keyCount, hpv, ih]
    | false =>
      rw [bumpEntry_of_bne w p hpw]
      cases hpv : p.1 == v with
      | true => simp [keyCount, hpv]
      | false => simp [keyCount, hpv, ih]

theorem keyCount_append_single (l : List (String × Nat)) (w v : String)
    (hwv : (w == v) = false) :
    keyCount (l ++ [(w, 1)]) v = keyCount l v := by
  induction l with
  | nil => simp [keyCount, hwv]
  | cons p rest ih => by_cases hpv : p.1 == v <;> simp [keyCount, hpv, ih]

theorem keyCount_bumpWord_other (m : List (String × Nat)) (w v : String)
    (hwv : (w == v) = false) :
    keyCount (bumpWord m w) v = keyCount m v := by
  simp only [bumpWord]
  split_ifs with hany
  · exact keyCount_map_bump m w v hwv
  · exact keyCount_append_single m w v hwv

theorem keyCount_map_bump_self (l : List (String × Nat)) (w : String)
    (hany : l.any (fun p => p.1 == w) = true) :
    keyCount (l.map (bumpEntry w)) w = keyCount l w + 1 := by
  induction l with
  | nil => simp at hany
  | cons p rest ih =>
    rw [List.map_cons]
    cases hpw : p.1 == w with
    | true =>
      rw [bumpEntry_of_beq w p hpw]
      simp [keyCount, hpw]
    | false =>
      have hany2 : rest.any (fun p => p.1 == w) = true := by
        simpa [List.any_cons, hpw] using hany
      rw [bumpEntry_of_bne w p hpw]
      simp [keyCount, hpw, ih hany2]

theorem keyCount_append_single_self (l : List (String × Nat)) (w : String)
    (hnone : l.any (fun p => p.1 == w) = false) :
    keyCount (l ++ [(w, 1)]) w = keyCount l w + 1 := by
  induction l with
  | nil => simp [keyCount]
  | cons p rest ih =>
    have hconj := hnone
    simp only [List.any_cons, Bool.or_eq_false_iff] at hconj
    simp [keyCount, hconj.1, ih hconj.2]

theorem keyCount_bumpWord_self (m : List (String × Nat)) (w : String) :
    keyCount (bumpWord m w) w = keyCount m w + 1 := by
  simp only [bumpWord]
  split_ifs with hany
  · exact keyCount_map_bump_self m w hany
  · refine keyCount_append_single_self m w ?_
    revert hany
    cases m.any (fun p => p.1 == w) <;> simp

theorem keyCount_foldl_bumpWord (ws : List String) (m : List (String × Nat))
    (v : String) :
    keyCount (ws.foldl bumpWord m) v = keyCount m v + ws.count v := by
  induction ws generalizing m with
  | nil => simp [List.count_nil]
  | cons w ws ih =>
    rw [List.foldl_cons, ih (bumpWord m w)]
    by_cases hwv : (w == v) = true
    · have h1 : w = v := by simpa using hwv
      subst h1
      rw [keyCount_bumpWord_self]
      simp [List.count_cons]
      omega
    · have h2 : (w == v) = false := by simpa using hwv
      rw [keyCount_bumpWord_other m w v h2]
      simp [List.count_cons, h2]

theorem keyCount_wordCounts (comments : List CommentRec) (v : String) :
    keyCount (wordCounts comments) v = totalOccurrences v comments := by
  suffices h : ∀ (cs : List CommentRec) (m : List (String × Nat)),
      keyCount (cs.foldl (fun m c => (wordsOf c.originalText).foldl bumpWord m) m) v
        = keyCount m v + totalOccurrences v cs by
    simpa [wordCounts, keyCount] using h comments []
  intro cs
  induction cs with
  | nil =>
    intro m
    simp [totalOccurrences]
  | cons c rest ih =>
    intro m
    rw [List.foldl_cons, ih, keyCount_foldl_bumpWord]
    simp only [totalOccurrences, List.map_cons, List.sum_cons]
    omega

theorem bumpWord_keys_nodup (m : List (String × Nat)) (w : String)
    (h : (m.map Prod.fst).Nodup) : ((bumpWord m w).map Prod.fst).Nodup := by
  simp only [bumpWord]
  split_ifs with hany
  · have hkeys : (m.map (bumpEntry w)).map Prod.fst = m.map Prod.fst := by
      rw [List.map_map]
      apply List.map_congr_left
      intro p _
      exact bumpEntry_fst w p
    rw [hkeys]
    exact h
  · rw [List.map_append]
    refine List.Nodup.append h (by simp) ?_
    intro a ha1 ha2
    have ha3 : a = w := by simpa using ha2
    subst ha3
    obtain ⟨p, hp, hpa⟩ := List.mem_map.1 ha1
    have hm : m.any (fun q => q.1 == a) = true :=
      List.any_eq_true.2 ⟨p, hp, by simp [hpa]⟩
    exact hany hm

theorem foldl_bumpWord_keys_nodup (ws : List String) (m : List (String × Nat))
    (h : (m.map Prod.fst).Nodup) : ((ws.foldl bumpWord m).map Prod.fst).Nodup := by
  induction ws generalizing m with
  | nil => exact h
  | cons w ws ih => exact ih _ (bumpWord_keys_nodup m w h)

theorem wordCounts_keys_nodup (comments : List CommentRec) :
    ((wordCounts comments).map Prod.fst).Nodup := by
  suffices h : ∀ (cs : List CommentRec) (m : List (String × Nat)),
      (m.map Prod.fst).Nodup →
      ((cs.foldl (fun m c => (wordsOf c.originalText).foldl bumpWord m) m).map
        Prod.fst).Nodup by
    exact h comments [] (by simp)
  intro cs
  induction cs with
  | nil =>
    intro m hm
    exact hm
  | cons c rest ih =>
    intro m hm
    rw [List.foldl_cons]
    exact ih _ (foldl_bumpWord_keys_nodup _ _ hm)

theorem mem_keyCount (m : List (String × Nat)) (e : String × Nat)
    (hnodup : (m.map Prod.fst).Nodup) (he : e ∈ m) : keyCount m e.1 = e.2 := by
  induction m with
  | nil => cases he
  | cons p rest ih =>
    rcases List.mem_cons.1 he with h | h
    · subst h
      simp [keyCount]
    · rw [List.map_cons] at hnodup
      have hnd := List.nodup_cons.1 hnodup
      have hne : (p.1 == e.1) = false := by
        have hmem : e.1 ∈ rest.map Prod.fst := List.mem_map_of_mem Prod.fst h
        have hp1 : p.1 ≠ e.1 := fun hc => hnd.1 (hc ▸ hmem)
        exact beq_eq_false_iff_ne.2 hp1
      simp [keyCount, hne, ih hnd.2 h]

theorem le_sum_of_mem_nat (l : List Nat) (x : Nat) (hx : x ∈ l) : x ≤ l.sum := by
  induction l with
  | nil => cases hx
  | cons y ys ih =>
    rcases List.mem_cons.1 hx with h | h
    · subst h
      simp [List.sum_cons]
    · have := ih h
      simp only [List.sum_cons]
      omega

/-- C10: the word-cloud entries carry pairwise-distinct token texts, each
token appearing once with its accumulated frequency across all input
records, so in particular every returned count is at least 1. -/
theorem generateWordCloud_distinct (comments : List CommentRec) :
    ((generateWordCloud comments).map Prod.fst).Nodup
    ∧ ∀ e ∈ generateWordCloud comments,
        e.2 = totalOccurrences e.1 comments ∧ 1 ≤ e.2 := by
  have hnodup : ((wordCounts comments).map Prod.fst).Nodup :=
    wordCounts_keys_nodup comments
  constructor
  · have hperm : ((sortDescByValue (wordCounts comments)).map Prod.fst).Perm
        ((wordCounts comments).map Prod.fst) :=
      (sortDescByValue_perm _).map Prod.fst
    have hsorted : ((sortDescByValue (wordCounts comments)).map Prod.fst).Nodup :=
      hperm.nodup_iff.2 hnodup
    show ((List.take 50 (sortDescByValue (wordCounts comments))).map Prod.fst).Nodup
    rw [List.map_take]
    exact List.Nodup.sublist (List.take_sublist _ _) hsorted
  · intro e he
    have hmem : e ∈ wordCounts comments := mem_generateWordCloud comments e he
    have heq : e.2 = totalOccurrences e.1 comments := by
      rw [← keyCount_wordCounts comments e.1, mem_keyCount _ e hnodup hmem]
    refine ⟨heq, ?_⟩
    have hkey : e.1 ∈ (wordCounts comments).map Prod.fst :=
      List.mem_map_of_mem Prod.fst hmem
    obtain ⟨c, hc, hw⟩ := wordCounts_keys comments e.1 hkey
    have hcount : 0 < (wordsOf c.originalText).count e.1 :=
      List.count_pos_iff.2 hw
    have hsum : (wordsOf c.originalText).count e.1
        ≤ totalOccurrences e.1 comments :=
      le_sum_of_mem_nat _ _
        (List.mem_map_of_mem (fun c => (wordsOf c.originalText).count e.1) hc)
    omega

/-- Witness for C10 at a concrete single-comment session. -/
theorem generateWordCloud_distinct_witness :
    (("service", 1) : String × Nat).2
        = totalOccurrences "service"
            [⟨"1", "Great GREAT service!", "", "neutral", 0, true⟩]
    ∧ 1 ≤ (("service", 1) : String × Nat).2 :=
  (generateWordCloud_distinct
      [⟨"1", "Great GREAT service!", "", "neutral", 0, true⟩]).2
    ("service", 1) (by decide)
